import Mathlib

/-!
Verification of the dynamic-batch-size scheduler simulation
(`exp/dynamic_batch_size/main.py`).

Times and durations are modelled as rationals (the source uses Python
floats; all quantities of interest are exact decimal values).  Nullable
request fields (`None` in Python) are `Option` values.  The sentinel
`math.inf` used for `batch_finish_time` and `next_check_time` is
modelled as `none` in an `Option ℚ`, with `none` meaning plus infinity.
-/

/-- The `Request` class of `main.py`: one unit of work with its
identity, SLO data and mutable scheduling state. -/
structure Request where
  arrival_time : ℚ
  id : Nat
  slo_factor : ℚ
  queue_time : Option ℚ
  dropped_time : Option ℚ
  execution_time : Option ℚ
  finish_time : Option ℚ
  batch_size : Option Nat
  deadline : ℚ
deriving DecidableEq

/-- Model of `Request.__init__`: all scheduling fields start unset and the
deadline is derived once from the size-1 batch runtime:
`deadline = arrival_time + slo_factor * batch_runtimes[1]`. -/
def Request.init (arrival_time : ℚ) (id : Nat) (slo_factor : ℚ) (runtime1 : ℚ) : Request :=
  { arrival_time := arrival_time
    id := id
    slo_factor := slo_factor
    queue_time := none
    dropped_time := none
    execution_time := none
    finish_time := none
    batch_size := none
    deadline := arrival_time + slo_factor * runtime1 }

/-- Model of `Request.schedule(current_time, batch_size, batch_runtime)`. -/
def Request.schedule (r : Request) (current_time : ℚ) (batch_size : Nat) (batch_runtime : ℚ) : Request :=
  { r with
    queue_time := some (current_time - r.arrival_time)
    batch_size := some batch_size
    execution_time := some batch_runtime
    finish_time := some (current_time + batch_runtime) }

/-- Model of `Request.preempt()`: reset the four scheduling fields to unset. -/
def Request.preempt (r : Request) : Request :=
  { r with
    queue_time := none
    batch_size := none
    execution_time := none
    finish_time := none }

/-- Model of `Request.get_dropped(current_time)`: stamp the drop time. -/
def Request.get_dropped (r : Request) (current_time : ℚ) : Request :=
  { r with dropped_time := some current_time }

/-- Modelled from the spec: `SortedQueue.append` of `utils.py` is not in
the sources; the spec describes an ordered container whose append
inserts preserving ascending order of the container's key (deadline for
the waiting container).  Modelled as ordered insertion into a list. -/
def queueAppend (l : List Request) (r : Request) : List Request :=
  match l with
  | [] => [r]
  | x :: xs => if r.deadline ≤ x.deadline then r :: x :: xs else x :: queueAppend xs r

/-- Model of `drop_requests(current_time, queue, finished_requests)`: pop from the
waiting queue while the head's deadline is strictly below
`current_time + batch_runtimes[1]`; stamp each popped request dropped,
append it to the finished history, and collect its id.  Returns the new
queue, the new finished history and the dropped ids in pop order. -/
def drop_requests (current_time : ℚ) (runtime1 : ℚ) (queue : List Request)
    (finished_requests : List Request) : List Request × List Request × List Nat :=
  match queue with
  | [] => ([], finished_requests, [])
  | q :: qs =>
    if q.deadline < current_time + runtime1 then
      let rest := drop_requests current_time runtime1 qs
        (finished_requests ++ [q.get_dropped current_time])
      (rest.1, rest.2.1, q.id :: rest.2.2)
    else (q :: qs, finished_requests, [])

/-- Model of `fetch_new_requests(current_time, future_requests, queue)`: move every
request whose arrival time has elapsed from the not-yet-arrived
container into the waiting queue, collecting the moved ids.  Returns
the new future container, the new queue and the moved ids. -/
def fetch_new_requests (current_time : ℚ) (future_requests : List Request)
    (queue : List Request) : List Request × List Request × List Nat :=
  match future_requests with
  | [] => ([], queue, [])
  | f :: fs =>
    if f.arrival_time ≤ current_time then
      let rest := fetch_new_requests current_time fs (queueAppend queue f)
      (rest.1, rest.2.1, f.id :: rest.2.2)
    else (f :: fs, queue, [])

/-- The Boolean admission test used by `drop_requests`. -/
def dropTest (current_time runtime1 : ℚ) (r : Request) : Bool :=
  decide (r.deadline < current_time + runtime1)

theorem drop_requests_eq (current_time runtime1 : ℚ) (queue finished : List Request) :
    drop_requests current_time runtime1 queue finished =
      (queue.dropWhile (dropTest current_time runtime1),
       finished ++ (queue.takeWhile (dropTest current_time runtime1)).map
         (fun r => r.get_dropped current_time),
       (queue.takeWhile (dropTest current_time runtime1)).map Request.id) := by
  induction queue generalizing finished with
  | nil => simp [drop_requests]
  | cons q qs ih =>
    by_cases h : q.deadline < current_time + runtime1
    · simp [drop_requests, h, List.dropWhile, List.takeWhile, dropTest, ih]
    · simp [drop_requests, h, List.dropWhile, List.takeWhile, dropTest]

/-- The Boolean arrival test used by `fetch_new_requests`. -/
def arriveTest (current_time : ℚ) (r : Request) : Bool :=
  decide (r.arrival_time ≤ current_time)

theorem fetch_new_requests_eq (current_time : ℚ) (future queue : List Request) :
    fetch_new_requests current_time future queue =
      (future.dropWhile (arriveTest current_time),
       (future.takeWhile (arriveTest current_time)).foldl queueAppend queue,
       (future.takeWhile (arriveTest current_time)).map Request.id) := by
  induction future generalizing queue with
  | nil => simp [fetch_new_requests]
  | cons f fs ih =>
    by_cases h : f.arrival_time ≤ current_time
    · simp [fetch_new_requests, h, List.dropWhile, List.takeWhile, arriveTest, ih]
    · simp [fetch_new_requests, h, List.dropWhile, List.takeWhile, arriveTest]

theorem mem_queueAppend {x r : Request} {l : List Request} :
    x ∈ queueAppend l r ↔ x = r ∨ x ∈ l := by
  induction l with
  | nil => simp [queueAppend]
  | cons a as ih =>
    by_cases h : r.deadline ≤ a.deadline
    · simp [queueAppend, h]
    · simp [queueAppend, h, ih]
      tauto

theorem mem_foldl_queueAppend {x : Request} {ms q : List Request} :
    x ∈ ms.foldl queueAppend q ↔ x ∈ q ∨ x ∈ ms := by
  induction ms generalizing q with
  | nil => simp
  | cons m msr ih =>
    simp only [List.foldl_cons, ih, mem_queueAppend, List.mem_cons]
    tauto

theorem fetch_fst_head (current_time : ℚ) (future queue : List Request) :
    ∀ r ∈ ((fetch_new_requests current_time future queue).1).head?,
      current_time < r.arrival_time := by
  induction future generalizing queue with
  | nil => simp [fetch_new_requests]
  | cons f fs ih =>
    by_cases h : f.arrival_time ≤ current_time
    · simpa [fetch_new_requests, h] using ih _
    · simp [fetch_new_requests, h]
      exact lt_of_not_le h

theorem sorted_dropWhile_deadline_ge (current_time runtime1 : ℚ) (queue : List Request)
    (hsorted : queue.Pairwise (fun a b => a.deadline ≤ b.deadline)) :
    ∀ r ∈ queue.dropWhile (dropTest current_time runtime1),
      current_time + runtime1 ≤ r.deadline := by
  induction queue with
  | nil => simp
  | cons q qs ih =>
    rcases List.pairwise_cons.mp hsorted with ⟨hq, hqs⟩
    by_cases h : q.deadline < current_time + runtime1
    · simpa [List.dropWhile, dropTest, h] using ih hqs
    · intro r hr
      simp only [List.dropWhile, dropTest, h, decide_False] at hr
      rcases List.mem_cons.mp hr with rfl | hr
      · exact le_of_not_lt h
      · exact le_trans (le_of_not_lt h) (hq r hr)

/-- C1: `drop_requests` at time `T` on a deadline-sorted waiting queue
removes exactly the maximal prefix of requests with
`deadline < T + duration(1)`; each removed request is stamped
`dropped_time = T` and appended to the finished history; the removed
ids are returned in pop order; requests with deadline at least
`T + duration(1)` remain in the queue unchanged. -/
theorem drop_requests_correct (current_time runtime1 : ℚ) (queue finished : List Request)
    (hsorted : queue.Pairwise (fun a b => a.deadline ≤ b.deadline)) :
    drop_requests current_time runtime1 queue finished =
      (queue.dropWhile (dropTest current_time runtime1),
       finished ++ (queue.takeWhile (dropTest current_time runtime1)).map
         (fun r => r.get_dropped current_time),
       (queue.takeWhile (dropTest current_time runtime1)).map Request.id)
    ∧ (∀ r ∈ queue.takeWhile (dropTest current_time runtime1),
        r.deadline < current_time + runtime1
        ∧ (r.get_dropped current_time).dropped_time = some current_time)
    ∧ (∀ r ∈ queue.dropWhile (dropTest current_time runtime1),
        current_time + runtime1 ≤ r.deadline ∧ r ∈ queue) := by
  refine ⟨drop_requests_eq _ _ _ _, ?_, ?_⟩
  · intro r hr
    refine ⟨?_, rfl⟩
    have := List.mem_takeWhile_imp hr
    simpa [dropTest] using this
  · intro r hr
    exact ⟨sorted_dropWhile_deadline_ge _ _ _ hsorted r hr,
      (List.dropWhile_sublist _).subset hr⟩

/-- Concrete request used in witnesses: deadline 5. -/
def reqW1 : Request := Request.init 0 1 1 5

/-- Concrete request used in witnesses: deadline 50. -/
def reqW2 : Request := Request.init 0 2 10 5

theorem drop_requests_correct_witness :
    drop_requests 0 10 [reqW1, reqW2] [] =
      (([reqW1, reqW2]).dropWhile (dropTest 0 10),
       [] ++ (([reqW1, reqW2]).takeWhile (dropTest 0 10)).map (fun r => r.get_dropped 0),
       (([reqW1, reqW2]).takeWhile (dropTest 0 10)).map Request.id)
    ∧ (∀ r ∈ ([reqW1, reqW2]).takeWhile (dropTest 0 10),
        r.deadline < 0 + 10 ∧ (r.get_dropped 0).dropped_time = some 0)
    ∧ (∀ r ∈ ([reqW1, reqW2]).dropWhile (dropTest 0 10),
        0 + 10 ≤ r.deadline ∧ r ∈ [reqW1, reqW2]) :=
  drop_requests_correct 0 10 [reqW1, reqW2] []
    (by simp [reqW1, reqW2, Request.init, List.pairwise_cons])

/-- The `Event` enum of `main.py`. -/
inductive Event where
  | CHECK_PREEMPTION
  | BATCH_FINISHED
  | NEW_REQS_ARRIVED
deriving DecidableEq

/-- The event classification at the top of each loop iteration:
`NEW_REQS_ARRIVED` when the in-flight batch is empty, else
`BATCH_FINISHED` when `current_time == batch_finish_time`, else
`CHECK_PREEMPTION`.  `batch_finish_time = none` models `math.inf`. -/
def classifyEvent (batch_len : Nat) (current_time : ℚ) (batch_finish_time : Option ℚ) : Event :=
  if batch_len = 0 then Event.NEW_REQS_ARRIVED
  else if some current_time = batch_finish_time then Event.BATCH_FINISHED
  else Event.CHECK_PREEMPTION

/-- Result of a policy `preempt` call: the returned Boolean plus the
(possibly mutated) in-flight batch and waiting queue. -/
structure PreemptResult where
  do_preemption : Bool
  current_batch : List Request
  queue : List Request

/-- Result of a policy `schedule` call: the returned next wakeup time
(`none` models `math.inf`) plus the (possibly mutated) in-flight batch
and waiting queue. -/
structure ScheduleResult where
  current_batch : List Request
  queue : List Request
  next_check_time : Option ℚ

/-- The batch-scheduling policy interface (external collaborator:
`SimpleScheduler` / `DynamicScheduler` are not part of the core).  The
engine is polymorphic over it. -/
structure Policy where
  schedule : List Request → List Request → ℚ → ScheduleResult
  preempt : List Request → List Request → ℚ → Option ℚ → PreemptResult

/-- State of the event loop between iterations. -/
structure EngineState where
  future_requests : List Request
  queue : List Request
  current_batch : List Request
  finished_requests : List Request
  current_time : ℚ
  batch_finish_time : Option ℚ
  next_check_time : Option ℚ
deriving DecidableEq

/-- Outcome of one loop iteration: continue with a new state, exit the
loop (trace finished), or hit a fatal assertion. -/
inductive StepResult where
  | next (s : EngineState)
  | done (s : EngineState)
  | fail (msg : String)
deriving DecidableEq

/-- Minimum of two extended times (`none` = plus infinity). -/
def omin : Option ℚ → Option ℚ → Option ℚ
  | none, b => b
  | some a, none => some a
  | some a, some b => some (min a b)

/-- Model of `min(next_check_time, batch_finish_time, next_req_arrival_time)`. -/
def omin3 (a b c : Option ℚ) : Option ℚ := omin a (omin b c)

/-- The preemption branch of the loop: only when the event is
`CHECK_PREEMPTION` and preemption is enabled is the policy's `preempt`
invoked; if it reports a change, `batch_finish_time` is recomputed as
`current_time + batch_runtimes[len(current_batch)]`. -/
def preemptPhase (preemption : Bool) (P : Policy) (runtimes : Nat → ℚ) (event : Event)
    (current_time : ℚ) (batch queue : List Request) (batch_finish_time : Option ℚ) :
    List Request × List Request × Option ℚ :=
  if event = Event.CHECK_PREEMPTION ∧ preemption = true then
    let res := P.preempt batch queue current_time batch_finish_time
    if res.do_preemption = true then
      (res.current_batch, res.queue, some (current_time + runtimes res.current_batch.length))
    else
      (res.current_batch, res.queue, batch_finish_time)
  else (batch, queue, batch_finish_time)

/-- The drain loop of the `BATCH_FINISHED` branch: pop every request of
the batch, asserting `req.finish_time == current_time`, and append it
to the finished history, collecting ids.  `none` models the assertion
firing. -/
def drainBatch (current_time : ℚ) (batch finished : List Request) :
    Option (List Request × List Nat) :=
  match batch with
  | [] => some (finished, [])
  | b :: bs =>
    if b.finish_time = some current_time then
      match drainBatch current_time bs (finished ++ [b]) with
      | none => none
      | some rest => some (rest.1, b.id :: rest.2)
    else none

/-- The `BATCH_FINISHED` branch: assert the batch non-empty, drain it
into the finished history, and reset `batch_finish_time` to infinity.
On any other event the three values pass through unchanged. -/
def drainPhase (event : Event) (current_time : ℚ) (batch finished : List Request)
    (batch_finish_time : Option ℚ) :
    Except String (List Request × List Request × Option ℚ) :=
  if event = Event.BATCH_FINISHED then
    if batch.length = 0 then
      Except.error "The current batch should be finished at this time but the current batch is empty."
    else
      match drainBatch current_time batch finished with
      | none => Except.error "The finish time of the request is not correct."
      | some rest => Except.ok ([], rest.1, none)
  else Except.ok (batch, finished, batch_finish_time)

/-- The scheduling branch: on any event other than `CHECK_PREEMPTION`
invoke the policy's `schedule`; if the resulting batch is non-empty,
set `batch_finish_time = current_time + duration` and apply
`Request.schedule` to every request in the batch.  Returns the new
batch, queue, `batch_finish_time` and `next_check_time`. -/
def schedulePhase (P : Policy) (runtimes : Nat → ℚ) (event : Event) (current_time : ℚ)
    (batch queue : List Request) (batch_finish_time next_check_time : Option ℚ) :
    List Request × List Request × Option ℚ × Option ℚ :=
  if event ≠ Event.CHECK_PREEMPTION then
    let res := P.schedule batch queue current_time
    if 0 < res.current_batch.length then
      let dur := runtimes res.current_batch.length
      (res.current_batch.map (fun r => r.schedule current_time res.current_batch.length dur),
       res.queue, some (current_time + dur), res.next_check_time)
    else (res.current_batch, res.queue, batch_finish_time, res.next_check_time)
  else (batch, queue, batch_finish_time, next_check_time)

/-- One iteration of the event loop of `main.py` (lines 287-358):
classify the event, drop unserviceable requests, fetch arrivals, run
the preemption branch, the batch-finished branch and the scheduling
branch, check termination, and advance simulated time to
`min(next_check_time, batch_finish_time, next_req_arrival_time)`. -/
def engineStep (preemption : Bool) (P : Policy) (runtimes : Nat → ℚ) (s : EngineState) :
    StepResult :=
  let event := classifyEvent s.current_batch.length s.current_time s.batch_finish_time
  let d := drop_requests s.current_time (runtimes 1) s.queue s.finished_requests
  let f := fetch_new_requests s.current_time s.future_requests d.1
  let pp := preemptPhase preemption P runtimes event s.current_time s.current_batch f.2.1
    s.batch_finish_time
  match drainPhase event s.current_time pp.1 d.2.1 pp.2.2 with
  | Except.error msg => StepResult.fail msg
  | Except.ok dr =>
    let sc := schedulePhase P runtimes event s.current_time dr.1 pp.2.1 dr.2.2 s.next_check_time
    if f.1 = [] ∧ sc.2.1 = [] ∧ sc.1 = [] then
      StepResult.done
        { future_requests := f.1, queue := sc.2.1, current_batch := sc.1,
          finished_requests := dr.2.1, current_time := s.current_time,
          batch_finish_time := sc.2.2.1, next_check_time := sc.2.2.2 }
    else
      match omin3 sc.2.2.2 sc.2.2.1 ((f.1.head?).map Request.arrival_time) with
      | none => StepResult.fail "The 3 times are all inf, which is not possible."
      | some t => StepResult.next
          { future_requests := f.1, queue := sc.2.1, current_batch := sc.1,
            finished_requests := dr.2.1, current_time := t,
            batch_finish_time := sc.2.2.1, next_check_time := sc.2.2.2 }

/-- C3: the event classification (recomputed by `engineStep` from the
current state each iteration, never stored in `EngineState`) is
`NEW_REQS_ARRIVED` iff the batch is empty, `BATCH_FINISHED` iff the
batch is non-empty and `current_time` equals `batch_finish_time`, and
`CHECK_PREEMPTION` in exactly the remaining case; the three cases are
mutually exclusive and exhaustive. -/
theorem event_classification_correct (n : Nat) (current_time : ℚ) (bft : Option ℚ) :
    (classifyEvent n current_time bft = Event.NEW_REQS_ARRIVED ↔ n = 0)
    ∧ (classifyEvent n current_time bft = Event.BATCH_FINISHED
        ↔ n ≠ 0 ∧ some current_time = bft)
    ∧ (classifyEvent n current_time bft = Event.CHECK_PREEMPTION
        ↔ n ≠ 0 ∧ some current_time ≠ bft)
    ∧ (classifyEvent n current_time bft = Event.NEW_REQS_ARRIVED
        ∨ classifyEvent n current_time bft = Event.BATCH_FINISHED
        ∨ classifyEvent n current_time bft = Event.CHECK_PREEMPTION) := by
  unfold classifyEvent
  by_cases h0 : n = 0 <;> by_cases h1 : some current_time = bft <;> simp [h0, h1]

theorem engineStep_check_preemption_off (P : Policy) (runtimes : Nat → ℚ) (s : EngineState)
    (hev : classifyEvent s.current_batch.length s.current_time s.batch_finish_time
      = Event.CHECK_PREEMPTION) :
    engineStep false P runtimes s =
      (if (fetch_new_requests s.current_time s.future_requests
            (drop_requests s.current_time (runtimes 1) s.queue s.finished_requests).1).1 = []
          ∧ (fetch_new_requests s.current_time s.future_requests
            (drop_requests s.current_time (runtimes 1) s.queue s.finished_requests).1).2.1 = []
          ∧ s.current_batch = [] then
        StepResult.done
          { future_requests := (fetch_new_requests s.current_time s.future_requests
              (drop_requests s.current_time (runtimes 1) s.queue s.finished_requests).1).1,
            queue := (fetch_new_requests s.current_time s.future_requests
              (drop_requests s.current_time (runtimes 1) s.queue s.finished_requests).1).2.1,
            current_batch := s.current_batch,
            finished_requests :=
              (drop_requests s.current_time (runtimes 1) s.queue s.finished_requests).2.1,
            current_time := s.current_time,
            batch_finish_time := s.batch_finish_time,
            next_check_time := s.next_check_time }
      else
        match omin3 s.next_check_time s.batch_finish_time
          (((fetch_new_requests s.current_time s.future_requests
            (drop_requests s.current_time (runtimes 1) s.queue s.finished_requests).1).1.head?).map
              Request.arrival_time) with
        | none => StepResult.fail "The 3 times are all inf, which is not possible."
        | some t => StepResult.next
            { future_requests := (fetch_new_requests s.current_time s.future_requests
                (drop_requests s.current_time (runtimes 1) s.queue s.finished_requests).1).1,
              queue := (fetch_new_requests s.current_time s.future_requests
                (drop_requests s.current_time (runtimes 1) s.queue s.finished_requests).1).2.1,
              current_batch := s.current_batch,
              finished_requests :=
                (drop_requests s.current_time (runtimes 1) s.queue s.finished_requests).2.1,
              current_time := t,
              batch_finish_time := s.batch_finish_time,
              next_check_time := s.next_check_time }) := by
  simp [engineStep, hev, preemptPhase, drainPhase, schedulePhase]

/-- C7: with preemption disabled, an iteration classified
`CHECK_PREEMPTION` never consults the policy (the step result is
identical for any two policies) and leaves `batch_finish_time`
unchanged whether the loop continues or exits. -/
theorem check_preemption_disabled_inert (P Q : Policy) (runtimes : Nat → ℚ) (s : EngineState)
    (hev : classifyEvent s.current_batch.length s.current_time s.batch_finish_time
      = Event.CHECK_PREEMPTION) :
    engineStep false P runtimes s = engineStep false Q runtimes s
    ∧ (∀ s', engineStep false P runtimes s = StepResult.next s'
        → s'.batch_finish_time = s.batch_finish_time)
    ∧ (∀ s', engineStep false P runtimes s = StepResult.done s'
        → s'.batch_finish_time = s.batch_finish_time) := by
  refine ⟨?_, ?_, ?_⟩
  · simp [engineStep, hev, preemptPhase, drainPhase, schedulePhase]
  · intro s' h
    rw [engineStep_check_preemption_off P runtimes s hev] at h
    split at h
    · exact StepResult.noConfusion h
    · split at h
      · exact StepResult.noConfusion h
      · cases h
        rfl
  · intro s' h
    rw [engineStep_check_preemption_off P runtimes s hev] at h
    split at h
    · cases h
      rfl
    · split at h
      · exact StepResult.noConfusion h
      · exact StepResult.noConfusion h

/-- A trivial policy: schedules nothing, preempts nothing. -/
def idPolicy : Policy :=
  { schedule := fun batch queue _ => ⟨batch, queue, none⟩
    preempt := fun batch queue _ _ => ⟨false, batch, queue⟩ }

/-- A greedy policy: moves the whole waiting queue into the batch. -/
def greedyPolicy : Policy :=
  { schedule := fun batch queue _ => ⟨batch ++ queue, [], none⟩
    preempt := fun batch queue _ _ => ⟨false, batch, queue⟩ }

/-- A constant throughput profile used in witnesses. -/
def rt10 : Nat → ℚ := fun _ => 10

/-- An in-flight request used in witnesses. -/
def reqB7 : Request :=
  { arrival_time := 0, id := 7, slo_factor := 1, queue_time := some 0, dropped_time := none,
    execution_time := some 10, finish_time := some 10, batch_size := some 1, deadline := 100 }

/-- Mid-flight witness state: one request in flight, not yet due. -/
def sW7 : EngineState :=
  { future_requests := [], queue := [], current_batch := [reqB7], finished_requests := [],
    current_time := 0, batch_finish_time := some 10, next_check_time := none }

/-- The state after one engine step from `sW7`. -/
def sW7next : EngineState :=
  { future_requests := [], queue := [], current_batch := [reqB7], finished_requests := [],
    current_time := 10, batch_finish_time := some 10, next_check_time := none }

theorem engineStep_sW7 : engineStep false idPolicy rt10 sW7 = StepResult.next sW7next := by
  norm_num [engineStep, classifyEvent, sW7, sW7next, drop_requests, fetch_new_requests,
    preemptPhase, drainPhase, schedulePhase, omin3, omin, idPolicy, reqB7]
  rfl

theorem check_preemption_disabled_inert_witness :
    engineStep false idPolicy rt10 sW7 = engineStep false greedyPolicy rt10 sW7
    ∧ sW7next.batch_finish_time = sW7.batch_finish_time :=
  have hev : classifyEvent sW7.current_batch.length sW7.current_time sW7.batch_finish_time
      = Event.CHECK_PREEMPTION := by norm_num [classifyEvent, sW7]
  have h := check_preemption_disabled_inert idPolicy greedyPolicy rt10 sW7 hev
  ⟨h.1, h.2.1 sW7next engineStep_sW7⟩

/-- C4: whenever the engine commits a batch at instant `T` (a schedule
branch whose policy call leaves the in-flight batch non-empty, size
`B`, duration `D = duration(B)`), every request in the batch gets
`queue_time = T - arrival_time`, `batch_size = B`,
`execution_time = D`, `finish_time = T + D`, and `batch_finish_time`
is set to `T + D`. -/
theorem batch_commit_correct (P : Policy) (runtimes : Nat → ℚ) (event : Event)
    (current_time : ℚ) (batch queue cb q2 : List Request) (bft nct nct2 : Option ℚ)
    (hev : event ≠ Event.CHECK_PREEMPTION)
    (hres : P.schedule batch queue current_time = ⟨cb, q2, nct2⟩)
    (hne : cb ≠ []) :
    schedulePhase P runtimes event current_time batch queue bft nct =
      (cb.map (fun r => r.schedule current_time cb.length (runtimes cb.length)),
       q2, some (current_time + runtimes cb.length), nct2)
    ∧ ∀ r ∈ cb,
        (r.schedule current_time cb.length (runtimes cb.length)).queue_time
            = some (current_time - r.arrival_time)
        ∧ (r.schedule current_time cb.length (runtimes cb.length)).batch_size = some cb.length
        ∧ (r.schedule current_time cb.length (runtimes cb.length)).execution_time
            = some (runtimes cb.length)
        ∧ (r.schedule current_time cb.length (runtimes cb.length)).finish_time
            = some (current_time + runtimes cb.length) := by
  constructor
  · simp [schedulePhase, hev, hres, List.length_pos.mpr hne]
  · intro r hr
    simp [Request.schedule]

/-- Throughput profile of scenario B: duration 10 for size 1, 15 for
larger batches. -/
def rtB : Nat → ℚ := fun n => if n = 1 then 10 else 15

/-- Scenario-B request arriving at t = 0. -/
def reqA4 : Request := Request.init 0 40 100 10

/-- Scenario-B request arriving at t = 1. -/
def reqB4 : Request := Request.init 1 41 100 10

theorem batch_commit_correct_witness :
    schedulePhase greedyPolicy rtB Event.NEW_REQS_ARRIVED 1 [] [reqA4, reqB4] (some 99) (some 99) =
      (([reqA4, reqB4]).map
        (fun r => r.schedule 1 ([reqA4, reqB4]).length (rtB ([reqA4, reqB4]).length)),
       [], some (1 + rtB ([reqA4, reqB4]).length), none)
    ∧ (reqA4.schedule 1 2 15).queue_time = some 1
    ∧ (reqA4.schedule 1 2 15).finish_time = some 16
    ∧ (reqB4.schedule 1 2 15).finish_time = some 16 := by
  have h := batch_commit_correct greedyPolicy rtB Event.NEW_REQS_ARRIVED 1 [] [reqA4, reqB4]
    [reqA4, reqB4] [] (some 99) (some 99) none (by simp) rfl (by simp)
  refine ⟨h.1, ?_, ?_, ?_⟩
  · have hq := (h.2 reqA4 (by simp)).1
    norm_num [rtB, reqA4, Request.init] at hq
    simpa [rtB, reqA4, Request.init] using hq
  · have hf := (h.2 reqA4 (by simp)).2.2.2
    norm_num [rtB] at hf
    simpa using hf
  · have hf := (h.2 reqB4 (by simp)).2.2.2
    norm_num [rtB] at hf
    simpa using hf

/-- C9: the deadline is derived at construction as
`arrival_time + slo_factor * duration(1)` and is never mutated by
`schedule`, `preempt` or `get_dropped` (batch completion moves the
request without modifying it). -/
theorem deadline_immutable (arrival : ℚ) (rid : Nat) (slo runtime1 current_time dur : ℚ)
    (bsize : Nat) (r : Request) :
    (Request.init arrival rid slo runtime1).deadline = arrival + slo * runtime1
    ∧ (r.schedule current_time bsize dur).deadline = r.deadline
    ∧ r.preempt.deadline = r.deadline
    ∧ (r.get_dropped current_time).deadline = r.deadline :=
  ⟨rfl, rfl, rfl, rfl⟩

/-- The all-or-nothing invariant on the four scheduling fields. -/
def schedFieldsInv (r : Request) : Prop :=
  (r.queue_time = none ∧ r.batch_size = none ∧ r.execution_time = none ∧ r.finish_time = none)
  ∨ (r.queue_time ≠ none ∧ r.batch_size ≠ none ∧ r.execution_time ≠ none ∧ r.finish_time ≠ none)

/-- The all-or-nothing invariant over every container of a state. -/
def allReqsInv (s : EngineState) : Prop :=
  (∀ r ∈ s.future_requests, schedFieldsInv r) ∧ (∀ r ∈ s.queue, schedFieldsInv r)
  ∧ (∀ r ∈ s.current_batch, schedFieldsInv r) ∧ (∀ r ∈ s.finished_requests, schedFieldsInv r)

/-- Policy contract (spec 4.5): policy callbacks must not violate the
scheduling-field invariants on the containers they may mutate. -/
def PolicyFieldsOK (P : Policy) : Prop :=
  ∀ batch queue : List Request, ∀ t : ℚ,
    (∀ r ∈ batch, schedFieldsInv r) → (∀ r ∈ queue, schedFieldsInv r) →
    ((∀ r ∈ (P.schedule batch queue t).current_batch, schedFieldsInv r)
      ∧ (∀ r ∈ (P.schedule batch queue t).queue, schedFieldsInv r)
      ∧ ∀ bft : Option ℚ,
        (∀ r ∈ (P.preempt batch queue t bft).current_batch, schedFieldsInv r)
        ∧ (∀ r ∈ (P.preempt batch queue t bft).queue, schedFieldsInv r))

theorem init_fields (arrival : ℚ) (rid : Nat) (slo runtime1 : ℚ) :
    schedFieldsInv (Request.init arrival rid slo runtime1) :=
  Or.inl ⟨rfl, rfl, rfl, rfl⟩

theorem schedule_fields (r : Request) (t d : ℚ) (b : Nat) :
    schedFieldsInv (r.schedule t b d) :=
  Or.inr (by simp [Request.schedule])

theorem preempt_fields (r : Request) : schedFieldsInv r.preempt :=
  Or.inl ⟨rfl, rfl, rfl, rfl⟩

theorem get_dropped_fields (r : Request) (t : ℚ) :
    schedFieldsInv (r.get_dropped t) ↔ schedFieldsInv r :=
  Iff.rfl

theorem drainBatch_mem {current_time : ℚ} {batch fin out1 : List Request} {ids : List Nat}
    (h : drainBatch current_time batch fin = some (out1, ids)) :
    ∀ r ∈ out1, r ∈ fin ∨ r ∈ batch := by
  induction batch generalizing fin out1 ids with
  | nil =>
    simp only [drainBatch, Option.some.injEq, Prod.mk.injEq] at h
    intro r hr
    exact Or.inl (by simpa [← h.1] using hr)
  | cons b bs ih =>
    simp only [drainBatch] at h
    split at h
    · split at h
      · exact absurd h (by simp)
      · simp only [Option.some.injEq, Prod.mk.injEq] at h
        intro r hr
        rcases ih (by assumption) r (by simpa [← h.1] using hr) with hm | hm
        · rcases List.mem_append.mp hm with hm2 | hm2
          · exact Or.inl hm2
          · exact Or.inr (List.mem_cons.mpr (Or.inl (List.mem_singleton.mp hm2)))
        · exact Or.inr (List.mem_cons_of_mem _ hm)
    · exact absurd h (by simp)

theorem drainPhase_mem {event : Event} {current_time : ℚ} {batch fin : List Request}
    {obft : Option ℚ} {out : List Request × List Request × Option ℚ}
    (h : drainPhase event current_time batch fin obft = Except.ok out) :
    (out.1 = batch ∨ out.1 = []) ∧ (∀ r ∈ out.2.1, r ∈ fin ∨ r ∈ batch) := by
  unfold drainPhase at h
  split at h
  · split at h
    · exact absurd h (by simp)
    · split at h
      · exact absurd h (by simp)
      · rename_i rest hrest
        obtain ⟨r1, r2⟩ := rest
        simp only [Except.ok.injEq] at h
        subst h
        exact ⟨Or.inr rfl, fun r hr => drainBatch_mem hrest r hr⟩
  · simp only [Except.ok.injEq] at h
    subst h
    exact ⟨Or.inl rfl, fun r hr => Or.inl hr⟩

theorem engineStep_preserves_inv (pre : Bool) (P : Policy) (runtimes : Nat → ℚ)
    (s : EngineState) (hP : PolicyFieldsOK P) (hs : allReqsInv s) :
    ∀ s', (engineStep pre P runtimes s = StepResult.next s'
        ∨ engineStep pre P runtimes s = StepResult.done s') → allReqsInv s' := by
  obtain ⟨hfut, hq, hb, hfin⟩ := hs
  intro s' hstep
  have hd1 : ∀ r ∈ (drop_requests s.current_time (runtimes 1) s.queue s.finished_requests).1,
      schedFieldsInv r := by
    rw [drop_requests_eq]
    intro r hr
    exact hq r ((List.dropWhile_sublist _).subset hr)
  have hd2 : ∀ r ∈ (drop_requests s.current_time (runtimes 1) s.queue s.finished_requests).2.1,
      schedFieldsInv r := by
    rw [drop_requests_eq]
    intro r hr
    rcases List.mem_append.mp hr with hm | hm
    · exact hfin r hm
    · rcases List.mem_map.mp hm with ⟨x, hx, rfl⟩
      exact (get_dropped_fields x _).mpr (hq x ((List.takeWhile_sublist _).subset hx))
  have hf1 : ∀ r ∈ (fetch_new_requests s.current_time s.future_requests
      (drop_requests s.current_time (runtimes 1) s.queue s.finished_requests).1).1,
      schedFieldsInv r := by
    rw [fetch_new_requests_eq]
    intro r hr
    exact hfut r ((List.dropWhile_sublist _).subset hr)
  have hf2 : ∀ r ∈ (fetch_new_requests s.current_time s.future_requests
      (drop_requests s.current_time (runtimes 1) s.queue s.finished_requests).1).2.1,
      schedFieldsInv r := by
    rw [fetch_new_requests_eq]
    intro r hr
    rcases mem_foldl_queueAppend.mp hr with hm | hm
    · exact hd1 r hm
    · exact hfut r ((List.takeWhile_sublist _).subset hm)
  have hppAll : ∀ ev : Event,
      (∀ r ∈ (preemptPhase pre P runtimes ev s.current_time s.current_batch
        (fetch_new_requests s.current_time s.future_requests
          (drop_requests s.current_time (runtimes 1) s.queue s.finished_requests).1).2.1
        s.batch_finish_time).1, schedFieldsInv r)
      ∧ (∀ r ∈ (preemptPhase pre P runtimes ev s.current_time s.current_batch
        (fetch_new_requests s.current_time s.future_requests
          (drop_requests s.current_time (runtimes 1) s.queue s.finished_requests).1).2.1
        s.batch_finish_time).2.1, schedFieldsInv r) := by
    intro ev
    unfold preemptPhase
    split
    · have h3 := (hP s.current_batch _ s.current_time hb hf2).2.2 s.batch_finish_time
      dsimp only
      split
      · exact ⟨h3.1, h3.2⟩
      · exact ⟨h3.1, h3.2⟩
    · exact ⟨hb, hf2⟩
  have hscAll : ∀ (ev : Event) (b q : List Request) (obft onct : Option ℚ),
      (∀ r ∈ b, schedFieldsInv r) → (∀ r ∈ q, schedFieldsInv r) →
      (∀ r ∈ (schedulePhase P runtimes ev s.current_time b q obft onct).1, schedFieldsInv r)
      ∧ (∀ r ∈ (schedulePhase P runtimes ev s.current_time b q obft onct).2.1,
          schedFieldsInv r) := by
    intro ev b q obft onct hbi hqi
    unfold schedulePhase
    split
    · have h3 := hP b q s.current_time hbi hqi
      dsimp only
      split
      · refine ⟨?_, h3.2.1⟩
        intro r hr
        rcases List.mem_map.mp hr with ⟨x, hx, rfl⟩
        exact schedule_fields x _ _ _
      · exact ⟨h3.1, h3.2.1⟩
    · exact ⟨hbi, hqi⟩
  rcases hstep with hstep | hstep <;>
  · simp only [engineStep] at hstep
    split at hstep
    · exact absurd hstep (by simp)
    · rename_i dr hdr
      have hdrm := drainPhase_mem hdr
      have hdr1 : ∀ r ∈ dr.1, schedFieldsInv r := by
        rcases hdrm.1 with he | he
        · rw [he]
          exact (hppAll _).1
        · rw [he]
          simp
      have hdr2 : ∀ r ∈ dr.2.1, schedFieldsInv r := by
        intro r hr
        rcases hdrm.2 r hr with hm | hm
        · exact hd2 r hm
        · exact (hppAll _).1 r hm
      have hsc := hscAll (classifyEvent s.current_batch.length s.current_time s.batch_finish_time)
        dr.1
        (preemptPhase pre P runtimes
          (classifyEvent s.current_batch.length s.current_time s.batch_finish_time)
          s.current_time s.current_batch
          (fetch_new_requests s.current_time s.future_requests
            (drop_requests s.current_time (runtimes 1) s.queue s.finished_requests).1).2.1
          s.batch_finish_time).2.1
        dr.2.2 s.next_check_time hdr1
        (hppAll (classifyEvent s.current_batch.length s.current_time s.batch_finish_time)).2
      split at hstep
      · cases hstep <;> exact ⟨hf1, hsc.2, hsc.1, hdr2⟩
      · split at hstep
        · exact absurd hstep (by simp)
        · cases hstep <;> exact ⟨hf1, hsc.2, hsc.1, hdr2⟩

/-- C5: the four scheduling fields (`queue_time`, `batch_size`,
`execution_time`, `finish_time`) are all unset after construction and
after `preempt`, all set after `schedule`, untouched by `get_dropped`,
and the invariant holds of every request in every container across an
engine step for any policy respecting the scheduling-field contract. -/
theorem sched_fields_all_or_nothing :
    (∀ (arrival : ℚ) (rid : Nat) (slo runtime1 : ℚ),
      schedFieldsInv (Request.init arrival rid slo runtime1))
    ∧ (∀ (r : Request) (t d : ℚ) (b : Nat), schedFieldsInv (r.schedule t b d))
    ∧ (∀ r : Request, schedFieldsInv r.preempt)
    ∧ (∀ (r : Request) (t : ℚ), schedFieldsInv r → schedFieldsInv (r.get_dropped t))
    ∧ (∀ (pre : Bool) (P : Policy) (runtimes : Nat → ℚ) (s s' : EngineState),
        PolicyFieldsOK P → allReqsInv s →
        (engineStep pre P runtimes s = StepResult.next s'
          ∨ engineStep pre P runtimes s = StepResult.done s') → allReqsInv s') :=
  ⟨init_fields, fun r t d b => schedule_fields r t d b, preempt_fields,
    fun r t h => (get_dropped_fields r t).mpr h,
    fun pre P runtimes s s' hP hs hstep => engineStep_preserves_inv pre P runtimes s hP hs s' hstep⟩

theorem idPolicy_fieldsOK : PolicyFieldsOK idPolicy :=
  fun _ _ _ hb hq => ⟨hb, hq, fun _ => ⟨hb, hq⟩⟩

theorem allReqsInv_sW7 : allReqsInv sW7 := by
  refine ⟨by simp [sW7], by simp [sW7], ?_, by simp [sW7]⟩
  intro r hr
  simp only [sW7, List.mem_singleton] at hr
  subst hr
  exact Or.inr (by simp [reqB7])

theorem sched_fields_all_or_nothing_witness :
    schedFieldsInv (Request.init 0 1 5 10)
    ∧ schedFieldsInv ((Request.init 0 1 5 10).schedule 0 1 10)
    ∧ schedFieldsInv (Request.init 0 1 5 10).preempt
    ∧ schedFieldsInv ((Request.init 0 1 5 10).get_dropped 3)
    ∧ allReqsInv sW7next := by
  have h := sched_fields_all_or_nothing
  exact ⟨h.1 0 1 5 10, h.2.1 _ 0 10 1, h.2.2.1 _, h.2.2.2.1 _ 3 (h.1 0 1 5 10),
    h.2.2.2.2 false idPolicy rt10 sW7 sW7next idPolicy_fieldsOK allReqsInv_sW7
      (Or.inl engineStep_sW7)⟩

/-- Comparison of `t` with an extended time (`none` = plus infinity). -/
def timeLe (t : ℚ) : Option ℚ → Prop
  | none => True
  | some x => t ≤ x

theorem omin3_some_le {a b c : Option ℚ} {t : ℚ} (h : omin3 a b c = some t) :
    timeLe t a ∧ timeLe t b ∧ timeLe t c := by
  cases a <;> cases b <;> cases c <;> simp_all [omin3, omin, timeLe] <;> subst h <;>
    simp [min_le_iff, le_refl]

theorem le_omin3 {a b c : Option ℚ} {t u : ℚ} (ha : timeLe t a) (hb : timeLe t b)
    (hc : timeLe t c) (h : omin3 a b c = some u) : t ≤ u := by
  cases a <;> cases b <;> cases c <;> simp_all [omin3, omin, timeLe] <;> subst h <;>
    simp_all [le_min_iff]

theorem drainPhase_bft {event : Event} {current_time : ℚ} {batch fin : List Request}
    {obft : Option ℚ} {out : List Request × List Request × Option ℚ}
    (h : drainPhase event current_time batch fin obft = Except.ok out) :
    out.2.2 = obft ∨ out.2.2 = none := by
  unfold drainPhase at h
  split at h
  · split at h
    · exact absurd h (by simp)
    · split at h
      · exact absurd h (by simp)
      · simp only [Except.ok.injEq] at h
        subst h
        exact Or.inr rfl
  · simp only [Except.ok.injEq] at h
    subst h
    exact Or.inl rfl

/-- Policy contract (spec 4.5): `schedule` returns a wakeup time no
earlier than the present. -/
def PolicyWakeupOK (P : Policy) : Prop :=
  ∀ batch queue : List Request, ∀ t : ℚ, timeLe t (P.schedule batch queue t).next_check_time

/-- The throughput profile maps every batch size to a non-negative
duration. -/
def RuntimesNonneg (runtimes : Nat → ℚ) : Prop := ∀ n, 0 ≤ runtimes n

/-- C6: given non-negative durations and a policy whose wakeup times
are never in the past, a loop iteration entered with
`current_time ≤ batch_finish_time` and `current_time ≤ next_check_time`
never moves simulated time backwards (and re-establishes both bounds),
and the loop exits only when the not-yet-arrived, waiting and in-flight
containers are all empty. -/
theorem time_monotone_and_exit (pre : Bool) (P : Policy) (runtimes : Nat → ℚ) (s : EngineState)
    (hP : PolicyWakeupOK P) (hrt : RuntimesNonneg runtimes)
    (hbft : timeLe s.current_time s.batch_finish_time)
    (hnct : timeLe s.current_time s.next_check_time) :
    (∀ s', engineStep pre P runtimes s = StepResult.next s' →
      s.current_time ≤ s'.current_time
      ∧ timeLe s'.current_time s'.batch_finish_time
      ∧ timeLe s'.current_time s'.next_check_time)
    ∧ (∀ s', engineStep pre P runtimes s = StepResult.done s' →
      s'.future_requests = [] ∧ s'.queue = [] ∧ s'.current_batch = []) := by
  have harr : timeLe s.current_time
      (((fetch_new_requests s.current_time s.future_requests
        (drop_requests s.current_time (runtimes 1) s.queue s.finished_requests).1).1).head?.map
        Request.arrival_time) := by
    rcases hh : ((fetch_new_requests s.current_time s.future_requests
        (drop_requests s.current_time (runtimes 1) s.queue s.finished_requests).1).1).head?
      with _ | r
    · simp [timeLe]
    · have hlt := fetch_fst_head s.current_time s.future_requests
        (drop_requests s.current_time (runtimes 1) s.queue s.finished_requests).1 r hh
      simpa [timeLe] using le_of_lt hlt
  have hpp : ∀ (ev : Event) (q2 : List Request),
      timeLe s.current_time (preemptPhase pre P runtimes ev s.current_time s.current_batch q2
        s.batch_finish_time).2.2 := by
    intro ev q2
    unfold preemptPhase
    split
    · dsimp only
      split
      · simp only [timeLe]
        have := hrt (P.preempt s.current_batch q2 s.current_time
          s.batch_finish_time).current_batch.length
        linarith
      · exact hbft
    · exact hbft
  have hsc : ∀ (ev : Event) (b q : List Request) (obft onct : Option ℚ),
      timeLe s.current_time obft → timeLe s.current_time onct →
      timeLe s.current_time (schedulePhase P runtimes ev s.current_time b q obft onct).2.2.1
      ∧ timeLe s.current_time (schedulePhase P runtimes ev s.current_time b q obft onct).2.2.2 := by
    intro ev b q obft onct h1 h2
    unfold schedulePhase
    split
    · dsimp only
      split
      · constructor
        · simp only [timeLe]
          have := hrt (P.schedule b q s.current_time).current_batch.length
          linarith
        · exact hP b q s.current_time
      · exact ⟨h1, hP b q s.current_time⟩
    · exact ⟨h1, h2⟩
  constructor
  · intro s' hstep
    simp only [engineStep] at hstep
    split at hstep
    · exact absurd hstep (by simp)
    · rename_i dr hdr
      have hdrb : timeLe s.current_time dr.2.2 := by
        rcases drainPhase_bft hdr with he | he
        · rw [he]
          exact hpp _ _
        · rw [he]
          trivial
      have hsc2 := hsc (classifyEvent s.current_batch.length s.current_time s.batch_finish_time)
        dr.1
        (preemptPhase pre P runtimes
          (classifyEvent s.current_batch.length s.current_time s.batch_finish_time)
          s.current_time s.current_batch
          (fetch_new_requests s.current_time s.future_requests
            (drop_requests s.current_time (runtimes 1) s.queue s.finished_requests).1).2.1
          s.batch_finish_time).2.1
        dr.2.2 s.next_check_time hdrb hnct
      split at hstep
      · exact absurd hstep (by simp)
      · split at hstep
        · exact absurd hstep (by simp)
        · rename_i t heq
          cases hstep
          have hmin := omin3_some_le heq
          exact ⟨le_omin3 hsc2.2 hsc2.1 harr heq, hmin.2.1, hmin.1⟩
  · intro s' hstep
    simp only [engineStep] at hstep
    split at hstep
    · exact absurd hstep (by simp)
    · split at hstep
      · rename_i hcond
        cases hstep
        exact ⟨hcond.1, hcond.2.1, hcond.2.2⟩
      · split at hstep
        · exact absurd hstep (by simp)
        · exact absurd hstep (by simp)

theorem time_monotone_and_exit_witness :
    sW7.current_time ≤ sW7next.current_time
    ∧ timeLe sW7next.current_time sW7next.batch_finish_time
    ∧ timeLe sW7next.current_time sW7next.next_check_time :=
  (time_monotone_and_exit false idPolicy rt10 sW7
    (fun _ _ _ => trivial)
    (fun _ => by norm_num [rt10])
    (by norm_num [sW7, timeLe])
    trivial).1 sW7next engineStep_sW7

/-- Engine invariant: every request of the in-flight batch carries the
batch's recorded finish time. -/
def BatchTimeInv (s : EngineState) : Prop :=
  ∀ r ∈ s.current_batch, r.finish_time = s.batch_finish_time

/-- Policy contract for `preempt` (spec 4.4/4.5): when it reports a
composition change it has applied the scheduling transition at the new
batch size to every in-flight request; when it reports no change it has
left the in-flight batch untouched. -/
def PolicyPreemptOK (P : Policy) (runtimes : Nat → ℚ) : Prop :=
  ∀ batch queue : List Request, ∀ t : ℚ, ∀ bft : Option ℚ,
    ((P.preempt batch queue t bft).do_preemption = true →
      ∀ r ∈ (P.preempt batch queue t bft).current_batch,
        r.finish_time = some (t + runtimes (P.preempt batch queue t bft).current_batch.length))
    ∧ ((P.preempt batch queue t bft).do_preemption = false →
      (P.preempt batch queue t bft).current_batch = batch)

/-- States reachable from a start state by iterating the event loop. -/
inductive Reachable (pre : Bool) (P : Policy) (runtimes : Nat → ℚ) :
    EngineState → EngineState → Prop where
  | refl (s : EngineState) : Reachable pre P runtimes s s
  | step {s s1 s2 : EngineState} : Reachable pre P runtimes s s1 →
      engineStep pre P runtimes s1 = StepResult.next s2 → Reachable pre P runtimes s s2

theorem drainPhase_batchTime {event : Event} {current_time : ℚ} {batch fin : List Request}
    {obft : Option ℚ} {out : List Request × List Request × Option ℚ}
    (h : drainPhase event current_time batch fin obft = Except.ok out)
    (hin : ∀ r ∈ batch, r.finish_time = obft) :
    ∀ r ∈ out.1, r.finish_time = out.2.2 := by
  unfold drainPhase at h
  split at h
  · split at h
    · exact absurd h (by simp)
    · split at h
      · exact absurd h (by simp)
      · simp only [Except.ok.injEq] at h
        subst h
        simp
  · simp only [Except.ok.injEq] at h
    subst h
    exact hin

theorem engineStep_preserves_batchTimeInv (pre : Bool) (P : Policy) (runtimes : Nat → ℚ)
    (s : EngineState) (hP : PolicyPreemptOK P runtimes) (hs : BatchTimeInv s) :
    ∀ s', engineStep pre P runtimes s = StepResult.next s' → BatchTimeInv s' := by
  intro s' hstep
  have hppBT : ∀ (ev : Event) (q2 : List Request),
      ∀ r ∈ (preemptPhase pre P runtimes ev s.current_time s.current_batch q2
        s.batch_finish_time).1,
        r.finish_time = (preemptPhase pre P runtimes ev s.current_time s.current_batch q2
          s.batch_finish_time).2.2 := by
    intro ev q2
    unfold preemptPhase
    split
    · dsimp only
      split
      · rename_i hdo
        intro r hr
        exact (hP s.current_batch q2 s.current_time s.batch_finish_time).1 hdo r hr
      · rename_i hdo
        intro r hr
        rw [(hP s.current_batch q2 s.current_time s.batch_finish_time).2
          (Bool.not_eq_true _ ▸ Bool.of_not_eq_true hdo)] at hr
        exact hs r hr
    · exact hs
  have hscBT : ∀ (ev : Event) (b q : List Request) (obft onct : Option ℚ),
      (∀ r ∈ b, r.finish_time = obft) →
      ∀ r ∈ (schedulePhase P runtimes ev s.current_time b q obft onct).1,
        r.finish_time = (schedulePhase P runtimes ev s.current_time b q obft onct).2.2.1 := by
    intro ev b q obft onct hbin
    unfold schedulePhase
    split
    · dsimp only
      split
      · intro r hr
        rcases List.mem_map.mp hr with ⟨x, hx, rfl⟩
        simp [Request.schedule]
      · rename_i hlen
        intro r hr
        rw [List.length_eq_zero.mp (Nat.le_zero.mp (Nat.not_lt.mp hlen))] at hr
        cases hr
    · exact hbin
  simp only [engineStep] at hstep
  split at hstep
  · exact absurd hstep (by simp)
  · rename_i dr hdr
    have hdrBT := drainPhase_batchTime hdr (hppBT _ _)
    split at hstep
    · exact absurd hstep (by simp)
    · split at hstep
      · exact absurd hstep (by simp)
      · cases hstep
        exact hscBT _ dr.1 _ dr.2.2 s.next_check_time hdrBT

theorem reachable_batchTimeInv {pre : Bool} {P : Policy} {runtimes : Nat → ℚ}
    {s0 s : EngineState} (hP : PolicyPreemptOK P runtimes) (h0 : BatchTimeInv s0)
    (h : Reachable pre P runtimes s0 s) : BatchTimeInv s := by
  induction h with
  | refl => exact h0
  | step hr hstep ih => exact engineStep_preserves_batchTimeInv _ _ _ _ hP ih _ hstep

theorem drainBatch_ok {current_time : ℚ} {batch : List Request}
    (h : ∀ r ∈ batch, r.finish_time = some current_time) :
    ∀ fin, drainBatch current_time batch fin = some (fin ++ batch, batch.map Request.id) := by
  induction batch with
  | nil =>
    intro fin
    simp [drainBatch]
  | cons b bs ih =>
    intro fin
    have hb := h b (List.mem_cons_self b bs)
    simp [drainBatch, hb, ih (fun r hr => h r (List.mem_cons_of_mem _ hr))]

/-- C2: in every state reachable (from an empty-batch start, under a
contract-respecting preempt policy) whose event is `BATCH_FINISHED`,
every request of the in-flight batch has `finish_time` equal to the
current simulated time, so the drain assertion never fires, the drain
appends exactly the batch (in order, with its ids) to the finished
history, and resets `batch_finish_time` to infinity. -/
theorem batch_finished_drain_safe (pre : Bool) (P : Policy) (runtimes : Nat → ℚ)
    (s0 s : EngineState) (hP : PolicyPreemptOK P runtimes)
    (h0 : s0.current_batch = [])
    (hreach : Reachable pre P runtimes s0 s)
    (hev : classifyEvent s.current_batch.length s.current_time s.batch_finish_time
      = Event.BATCH_FINISHED) :
    (∀ r ∈ s.current_batch, r.finish_time = some s.current_time)
    ∧ (∀ fin, drainBatch s.current_time s.current_batch fin
        = some (fin ++ s.current_batch, s.current_batch.map Request.id))
    ∧ (∀ fin, drainPhase Event.BATCH_FINISHED s.current_time s.current_batch fin
        s.batch_finish_time = Except.ok ([], fin ++ s.current_batch, none)) := by
  have hlen : s.current_batch.length ≠ 0 := by
    intro hl
    simp [classifyEvent, hl] at hev
  have hbfteq : some s.current_time = s.batch_finish_time := by
    by_contra hne
    simp [classifyEvent, hlen, hne] at hev
  have hinv : BatchTimeInv s :=
    reachable_batchTimeInv hP (fun r hr => absurd (h0 ▸ hr) (List.not_mem_nil r)) hreach
  have hfin : ∀ r ∈ s.current_batch, r.finish_time = some s.current_time := by
    intro r hr
    rw [hinv r hr, ← hbfteq]
  refine ⟨hfin, drainBatch_ok hfin, ?_⟩
  intro fin
  unfold drainPhase
  rw [if_pos rfl, if_neg hlen, drainBatch_ok hfin fin]

/-- Start state for the C2 witness: one high-SLO request waiting. -/
def s0W2 : EngineState :=
  { future_requests := [], queue := [reqW2], current_batch := [], finished_requests := [],
    current_time := 0, batch_finish_time := none, next_check_time := none }

/-- State after one greedy step from `s0W2`: the request in flight,
due at t = 10. -/
def s1W2 : EngineState :=
  { future_requests := [], queue := [], current_batch := [reqW2.schedule 0 1 10],
    finished_requests := [], current_time := 10, batch_finish_time := some 10,
    next_check_time := none }

theorem greedy_preemptOK : PolicyPreemptOK greedyPolicy rt10 := by
  intro b q t bft
  constructor
  · intro h r hr
    exact absurd h (by simp [greedyPolicy])
  · intro _
    rfl

theorem engineStep_s0W2 : engineStep false greedyPolicy rt10 s0W2 = StepResult.next s1W2 := by
  norm_num [engineStep, classifyEvent, s0W2, s1W2, drop_requests, fetch_new_requests,
    preemptPhase, drainPhase, schedulePhase, omin3, omin, greedyPolicy, reqW2, Request.init,
    Request.schedule, rt10]
  rfl

theorem batch_finished_drain_safe_witness :
    (reqW2.schedule 0 1 10).finish_time = some s1W2.current_time
    ∧ drainBatch s1W2.current_time s1W2.current_batch []
        = some ([] ++ s1W2.current_batch, s1W2.current_batch.map Request.id)
    ∧ drainPhase Event.BATCH_FINISHED s1W2.current_time s1W2.current_batch []
        s1W2.batch_finish_time = Except.ok ([], [] ++ s1W2.current_batch, none) :=
  have h := batch_finished_drain_safe false greedyPolicy rt10 s0W2 s1W2 greedy_preemptOK rfl
    (Reachable.step (Reachable.refl s0W2) engineStep_s0W2)
    (by norm_num [classifyEvent, s1W2])
  ⟨h.1 (reqW2.schedule 0 1 10) (by simp [s1W2]), h.2.1 [], h.2.2 []⟩

/-- Lookup in the `batch_runtimes` table built from
`runtimes_by_batch_size.csv`. -/
def lookupRuntime (profile : List (Nat × ℚ)) (b : Nat) : Option ℚ :=
  match profile with
  | [] => none
  | p :: ps => if p.1 = b then some p.2 else lookupRuntime ps b

/-- The eager argument validation of `main.py` (lines 181-186): a
non-positive SLO factor or maximum batch size is fatal with a
descriptive message.  No eager check inspects the throughput profile. -/
def validate_args (slo_factor : ℚ) (max_batch_size : Int) : Except String Unit :=
  if slo_factor ≤ 0 then Except.error "Error: slo_factor must be positive"
  else if max_batch_size ≤ 0 then Except.error "Error: max_batch_size must be positive"
  else Except.ok ()

/-- Request construction from trace rows (lines 222-248): every
`Request.__init__` reads `batch_runtimes[1]`, so a missing size-1 entry
surfaces as a `KeyError` at the first construction; with no rows no
lookup happens. -/
def buildRequests (profile : List (Nat × ℚ)) (rows : List (ℚ × Nat × ℚ)) :
    Except String (List Request) :=
  match rows with
  | [] => Except.ok []
  | _ :: _ =>
    match lookupRuntime profile 1 with
    | none => Except.error "KeyError: 1"
    | some runtime1 =>
        Except.ok (rows.map (fun row => Request.init row.1 row.2.1 row.2.2 runtime1))

/-- The pre-simulation phase relevant to configuration errors: argument
validation followed by request construction. -/
def simulationSetup (slo_factor : ℚ) (max_batch_size : Int) (profile : List (Nat × ℚ))
    (rows : List (ℚ × Nat × ℚ)) : Except String (List Request) :=
  match validate_args slo_factor max_batch_size with
  | Except.error e => Except.error e
  | Except.ok _ => buildRequests profile rows

/-- C8 counterexample: with maximum batch size 2 an entry for batch
size 2 is required, yet the whole pre-simulation phase succeeds on a
profile containing only size 1 — the missing required entry is not
detected eagerly (it first surfaces mid-simulation at the
`batch_runtimes[len(current_batch)]` lookup when a batch of that size
is committed). -/
theorem config_missing_entry_not_eager :
    simulationSetup 5 2 [(1, 10)] [(0, 0, 5)] = Except.ok [Request.init 0 0 5 10]
    ∧ lookupRuntime [(1, 10)] 2 = none := by
  constructor
  · rfl
  · rfl

/-- C8 amended: a non-positive SLO factor and a non-positive maximum
batch size are detected eagerly and fatally with a descriptive message;
a missing size-1 throughput entry is fatal before the loop but only as
a raw lookup failure at the first request construction; a missing entry
for another required batch size is not detected before the simulation
at all. -/
theorem config_validation_behaviour (slo : ℚ) (mbs : Int) (profile : List (Nat × ℚ))
    (rows : List (ℚ × Nat × ℚ)) (row0 : ℚ × Nat × ℚ) :
    (slo ≤ 0 → validate_args slo mbs = Except.error "Error: slo_factor must be positive")
    ∧ (0 < slo → mbs ≤ 0 →
        validate_args slo mbs = Except.error "Error: max_batch_size must be positive")
    ∧ (0 < slo → 0 < mbs → lookupRuntime profile 1 = none →
        simulationSetup slo mbs profile (row0 :: rows) = Except.error "KeyError: 1")
    ∧ simulationSetup 5 2 [(1, 10)] [(0, 0, 5)] = Except.ok [Request.init 0 0 5 10] := by
  refine ⟨?_, ?_, ?_, rfl⟩
  · intro h
    simp [validate_args, h]
  · intro h1 h2
    simp [validate_args, not_le.mpr h1, h2]
  · intro h1 h2 h3
    simp [simulationSetup, validate_args, not_le.mpr h1, not_le.mpr h2, buildRequests, h3]

theorem config_validation_behaviour_witness :
    validate_args (-1) 16 = Except.error "Error: slo_factor must be positive"
    ∧ validate_args 5 0 = Except.error "Error: max_batch_size must be positive"
    ∧ simulationSetup 5 2 [(2, 15)] [(0, 0, 5)] = Except.error "KeyError: 1" :=
  ⟨(config_validation_behaviour (-1) 16 [] [] (0, 0, 0)).1 (by norm_num),
   (config_validation_behaviour 5 0 [] [] (0, 0, 0)).2.1 (by norm_num) (by norm_num),
   (config_validation_behaviour 5 2 [(2, 15)] [] (0, 0, 5)).2.2.1 (by norm_num) (by norm_num)
     rfl⟩

theorem mem_takeWhile_arrive {current_time : ℚ} {future : List Request} {r : Request}
    (hsorted : future.Pairwise (fun a b => a.arrival_time ≤ b.arrival_time))
    (hr : r ∈ future) (hle : r.arrival_time ≤ current_time) :
    r ∈ future.takeWhile (arriveTest current_time) := by
  induction future with
  | nil => cases hr
  | cons f fs ih =>
    rcases List.pairwise_cons.mp hsorted with ⟨hf, hfs⟩
    rcases List.mem_cons.mp hr with rfl | hr2
    · simp [List.takeWhile, arriveTest, hle]
    · have hfle : f.arrival_time ≤ current_time := le_trans (hf r hr2) hle
      simp only [List.takeWhile, arriveTest, hfle, decide_True]
      exact List.mem_cons_of_mem _ (ih hfs hr2)

/-- The ids dropped by the admission controller during one loop
iteration (the drop runs on the waiting queue before the arrival
gate). -/
def stepDrops (runtimes : Nat → ℚ) (s : EngineState) : List Nat :=
  (drop_requests s.current_time (runtimes 1) s.queue s.finished_requests).2.2

/-- The waiting queue handed to the policy after the arrival gate of
one loop iteration. -/
def stepQueueAfterArrivals (runtimes : Nat → ℚ) (s : EngineState) : List Request :=
  (fetch_new_requests s.current_time s.future_requests
    (drop_requests s.current_time (runtimes 1) s.queue s.finished_requests).1).2.1

/-- C10: a request arriving exactly at the current instant `T` is not
in the waiting queue when the admission controller runs (drop precedes
the arrival gate), so it is not dropped during the iteration at `T`
even though its deadline is below `T + duration(1)`; the iteration is
classified `NEW_REQS_ARRIVED` (empty batch), the arrival gate places
the request into the queue handed to the policy, and under the greedy
policy the schedule branch commits it into the batch scheduled at `T`;
it can only be dropped at a strictly later iteration. -/
theorem late_arrival_bypasses_drop (runtimes : Nat → ℚ) (s : EngineState) (r : Request)
    (hr : r ∈ s.future_requests) (harr : r.arrival_time = s.current_time)
    (hsorted : s.future_requests.Pairwise (fun a b => a.arrival_time ≤ b.arrival_time))
    (hnotq : r.id ∉ s.queue.map Request.id)
    (hbatch : s.current_batch = [])
    (_hdl : r.deadline < s.current_time + runtimes 1) :
    r.id ∉ stepDrops runtimes s
    ∧ classifyEvent s.current_batch.length s.current_time s.batch_finish_time
        = Event.NEW_REQS_ARRIVED
    ∧ r ∈ stepQueueAfterArrivals runtimes s
    ∧ r.schedule s.current_time (stepQueueAfterArrivals runtimes s).length
        (runtimes (stepQueueAfterArrivals runtimes s).length)
      ∈ (schedulePhase greedyPolicy runtimes Event.NEW_REQS_ARRIVED s.current_time []
          (stepQueueAfterArrivals runtimes s) s.batch_finish_time s.next_check_time).1 := by
  have hq2 : r ∈ stepQueueAfterArrivals runtimes s := by
    rw [stepQueueAfterArrivals, fetch_new_requests_eq]
    exact mem_foldl_queueAppend.mpr (Or.inr (mem_takeWhile_arrive hsorted hr (le_of_eq harr)))
  refine ⟨?_, ?_, hq2, ?_⟩
  · rw [stepDrops, drop_requests_eq]
    intro hmem
    rcases List.mem_map.mp hmem with ⟨x, hx, hxid⟩
    exact hnotq (List.mem_map.mpr ⟨x, (List.takeWhile_sublist _).subset hx, hxid⟩)
  · simp [classifyEvent, hbatch]
  · have hne : stepQueueAfterArrivals runtimes s ≠ [] := List.ne_nil_of_mem hq2
    unfold schedulePhase
    rw [if_pos (by simp)]
    dsimp only
    simp only [greedyPolicy, List.nil_append]
    rw [if_pos (List.length_pos.mpr hne)]
    exact List.mem_map.mpr ⟨r, hq2, rfl⟩

/-- A request arriving at t = 0 whose deadline (5) is already below
duration(1) = 10 at its own arrival instant. -/
def reqL : Request := Request.init 0 9 (1/2) 10

/-- Witness state for C10: `reqL` arrives exactly at the current
instant. -/
def sX10 : EngineState :=
  { future_requests := [reqL], queue := [], current_batch := [], finished_requests := [],
    current_time := 0, batch_finish_time := none, next_check_time := none }

theorem late_arrival_bypasses_drop_witness :
    reqL.id ∉ stepDrops rt10 sX10
    ∧ classifyEvent sX10.current_batch.length sX10.current_time sX10.batch_finish_time
        = Event.NEW_REQS_ARRIVED
    ∧ reqL ∈ stepQueueAfterArrivals rt10 sX10
    ∧ reqL.schedule sX10.current_time (stepQueueAfterArrivals rt10 sX10).length
        (rt10 (stepQueueAfterArrivals rt10 sX10).length)
      ∈ (schedulePhase greedyPolicy rt10 Event.NEW_REQS_ARRIVED sX10.current_time []
          (stepQueueAfterArrivals rt10 sX10) sX10.batch_finish_time sX10.next_check_time).1 :=
  late_arrival_bypasses_drop rt10 sX10 reqL (by simp [sX10])
    (by norm_num [sX10, reqL, Request.init])
    (by simp [sX10])
    (by simp [sX10])
    rfl
    (by norm_num [sX10, reqL, Request.init, rt10])
